import Mathlib

/-!
Verification development for the static Python-source analyzer of the
agent-context repository (src/agent_context/python_analyzer.py).

The analyzer is shallowly embedded: the subset of the Python abstract syntax
tree that the analyzer inspects is an inductive type, and the functions
`format_function_signature`, `extract_docstring` and `analyze_python_file`
are translated statement by statement from the source.  Python string
primitives used by the source (substring test with the in operator,
str.isupper, str.upper, str.lower, str.strip, str.startswith, slicing,
str.join) are modelled by executable functions over the character list of a
Lean string, so that every definition evaluates on concrete inputs.
-/

namespace AgentContext

/-- Does the first character list start with the second list of characters?
Helper for the Python substring test. -/
def startsWithList : List Char → List Char → Bool
  | _, [] => true
  | [], _ :: _ => false
  | b :: bs, a :: as => a == b && startsWithList bs as

/-- Python substring containment: `hasInfixList l p` is the Python test
p in l, where both are character lists. -/
def hasInfixList : List Char → List Char → Bool
  | [], p => startsWithList [] p
  | c :: rest, p => startsWithList (c :: rest) p || hasInfixList rest p

/-- Python `pat in s` for strings. -/
def strContains (s pat : String) : Bool := hasInfixList s.data pat.data

/-- Python `s.startswith(p)`. -/
def pyStartsWith (s p : String) : Bool := startsWithList s.data p.data

/-- Python `s.upper()` (ASCII model). -/
def pyUpper (s : String) : String := String.mk (s.data.map Char.toUpper)

/-- Python `s.lower()` (ASCII model). -/
def pyLower (s : String) : String := String.mk (s.data.map Char.toLower)

/-- Python `s.isupper()`: at least one cased character and every cased
character is upper-case (ASCII model: cased = alphabetic). -/
def pyIsUpper (s : String) : Bool :=
  s.data.any (fun c => c.isAlpha) && s.data.all (fun c => !c.isAlpha || c.isUpper)

/-- Python `len(s)` for strings (number of characters). -/
def strLen (s : String) : Nat := s.data.length

/-- Python slicing `s[:n]` for a non-negative bound. -/
def pyTake (s : String) (n : Nat) : String := String.mk (s.data.take n)

/-- Python `s.strip()`: remove whitespace from both ends. -/
def pyStrip (s : String) : String :=
  String.mk (((s.data.dropWhile Char.isWhitespace).reverse.dropWhile
    Char.isWhitespace).reverse)

/-- Python `sep.join(parts)`. -/
def joinSep (sep : String) : List String → String
  | [] => ""
  | [x] => x
  | x :: y :: rest => x ++ sep ++ joinSep sep (y :: rest)

/-- Python `a <= b` for strings: lexicographic comparison by code point,
which is exactly the order on `String` (via the order on its character
list). -/
def pyStrLe (a b : String) : Bool := decide (a ≤ b)

/-!  ## The embedded fragment of the Python AST

Only the node kinds the analyzer inspects are given structure.  Every other
expression or statement is carried as the text that `ast.unparse` renders it
to, since the analyzer treats such nodes purely as render-to-text opaque
values.  `FunctionDef` and `AsyncFunctionDef` are one constructor with an
`isAsync` flag because the analyzer treats the two identically.
-/

/-- An expression node.  `name` is `ast.Name` (with its identifier),
`strConst` is a string-literal `ast.Constant` (the docstring case),
`compare` is an `ast.Compare` carried with its rendered text, and `other`
is any other expression carried with its rendered text. -/
inductive PExpr where
  | name (id : String)
  | strConst (s : String)
  | compare (src : String)
  | other (src : String)

/-- A function parameter: `ast.arg`, the identifier with an optional
annotation expression (field renamed to `ann`). -/
structure PArg where
  arg : String
  ann : Option PExpr

/-- `ast.arguments`: the parameter lists of a function definition.
`kw_defaults` pairs with `kwonlyargs`; `defaults` are the trailing
positional defaults. -/
structure PArguments where
  posonlyargs : List PArg
  args : List PArg
  vararg : Option PArg
  kwonlyargs : List PArg
  kw_defaults : List (Option PExpr)
  kwarg : Option PArg
  defaults : List PExpr

/-- A statement node of the embedded fragment. -/
inductive Stmt where
  | importStmt (names : List String)
  | importFrom (module : Option String) (names : List String)
  | funcDef (isAsync : Bool) (name : String) (args : PArguments)
      (body : List Stmt) (decorator_list : List PExpr) (returns : Option PExpr)
  | classDef (name : String) (bases : List PExpr) (body : List Stmt)
  | assign (targets : List PExpr) (value : PExpr)
  | annAssign (target : PExpr) (ann : PExpr) (value : Option PExpr)
  | ifStmt (test : PExpr) (body : List Stmt) (orelse : List Stmt)
  | passStmt
  | exprStmt (value : PExpr)
  | otherStmt (src : String)

/-- `ast.unparse` on an expression.  A string constant renders with quotes
(escaping is abstracted away); the opaque constructors carry their own
rendering. -/
def unparseExpr : PExpr → String
  | .name id => id
  | .strConst s => "\x27" ++ s ++ "\x27"
  | .compare src => src
  | .other src => src

/-- `ast.unparse` on a statement of the embedded fragment.  The analyzer
only ever uses the rendered text opaquely (it measures its length and joins
lines), so renderings of structured statements are schematic; `otherStmt`
carries its exact rendering. -/
def unparseStmt : Stmt → String
  | .importStmt names => "import " ++ joinSep ", " names
  | .importFrom m names =>
      "from " ++ m.getD "" ++ " import " ++ joinSep ", " names
  | .funcDef _ n _ _ _ _ => "def " ++ n ++ "(...)"
  | .classDef n _ _ => "class " ++ n ++ "(...)"
  | .assign targets v =>
      joinSep " = " (targets.map unparseExpr) ++ " = " ++ unparseExpr v
  | .annAssign t a v =>
      unparseExpr t ++ ": " ++ unparseExpr a ++
        (match v with
         | some e => " = " ++ unparseExpr e
         | none => "")
  | .ifStmt t _ _ => "if " ++ unparseExpr t ++ ": ..."
  | .passStmt => "pass"
  | .exprStmt e => unparseExpr e
  | .otherStmt src => src

/-- The child statements a node contributes to `ast.walk`: the bodies of
function and class definitions, and both branches of a conditional. -/
def childStmts : Stmt → List Stmt
  | .funcDef _ _ _ body _ _ => body
  | .classDef _ _ body => body
  | .ifStmt _ body orelse => body ++ orelse
  | _ => []

theorem sizeOf_list_append (l₁ l₂ : List Stmt) :
    sizeOf (l₁ ++ l₂) + 1 = sizeOf l₁ + sizeOf l₂ := by
  induction l₁ with
  | nil => simp; omega
  | cons a l ih => simp only [List.cons_append, List.cons.sizeOf_spec]; omega

theorem sizeOf_childStmts (s : Stmt) : sizeOf (childStmts s) ≤ sizeOf s := by
  cases s with
  | ifStmt t b o =>
      have hbo := sizeOf_list_append b o
      simp only [childStmts, Stmt.ifStmt.sizeOf_spec]
      omega
  | _ => simp [childStmts]; try omega

/-- `ast.walk` restricted to statements: breadth-first traversal of a
statement forest, as the Python deque-based `ast.walk` performs it. -/
def walkStmts : List Stmt → List Stmt
  | [] => []
  | s :: q => s :: walkStmts (q ++ childStmts s)
termination_by l => sizeOf l
decreasing_by
  have h1 := sizeOf_list_append q (childStmts s)
  have h2 := sizeOf_childStmts s
  simp only [List.cons.sizeOf_spec]
  omega

theorem walkStmts_eq_append : ∀ l : List Stmt, ∃ t, walkStmts l = l ++ t := by
  intro l
  induction l using walkStmts.induct with
  | case1 => exact ⟨[], by rw [walkStmts]; rfl⟩
  | case2 s q ih =>
      obtain ⟨t, ht⟩ := ih
      exact ⟨childStmts s ++ t, by rw [walkStmts, ht]; simp⟩

theorem mem_walkStmts_of_mem {s : Stmt} {l : List Stmt} (h : s ∈ l) :
    s ∈ walkStmts l := by
  obtain ⟨t, ht⟩ := walkStmts_eq_append l
  rw [ht]
  exact List.mem_append_left _ h

theorem childStmts_subset_walkStmts : ∀ (l : List Stmt) (u : Stmt),
    u ∈ walkStmts l → ∀ x ∈ childStmts u, x ∈ walkStmts l := by
  intro l
  induction l using walkStmts.induct with
  | case1 => intro u hu; simp [walkStmts] at hu
  | case2 s q ih =>
      intro u hu x hx
      rw [walkStmts] at hu ⊢
      rcases List.mem_cons.mp hu with heq | htail
      · subst heq
        exact List.mem_cons_of_mem _
          (mem_walkStmts_of_mem (List.mem_append_right _ hx))
      · exact List.mem_cons_of_mem _ (ih u htail x hx)

/-- `t` occurs (at any nesting depth) inside the statement `u`. -/
inductive OccursIn : Stmt → Stmt → Prop
  | refl (s : Stmt) : OccursIn s s
  | child {s t u : Stmt} : t ∈ childStmts u → OccursIn s t → OccursIn s u

theorem mem_walkStmts_of_occursIn {s u : Stmt} (h : OccursIn s u) :
    ∀ l : List Stmt, u ∈ walkStmts l → s ∈ walkStmts l := by
  induction h with
  | refl => intro l hl; exact hl
  | child hmem _ ih =>
      intro l hl
      exact ih l (childStmts_subset_walkStmts l _ hl _ hmem)

/-!  ## Result records

These mirror the dictionaries that `analyze_python_file` builds; field names
follow the dictionary keys. -/

structure MethodInfo where
  name : String
  signature : String
  docstring : Option String
  is_public : Bool
  is_property : Bool
  decorators : List String
  deriving DecidableEq

structure FuncInfo where
  name : String
  signature : String
  docstring : Option String
  is_public : Bool
  decorators : List String
  deriving DecidableEq

structure AttributeInfo where
  name : String
  type : Option String
  value : Option String
  is_public : Bool
  deriving DecidableEq

structure ClassInfo where
  name : String
  docstring : Option String
  methods : List MethodInfo
  bases : List String
  attributes : List AttributeInfo
  deriving DecidableEq

structure ConstantInfo where
  name : String
  value : String
  deriving DecidableEq

structure EnumMember where
  name : String
  value : String
  deriving DecidableEq

structure EnumInfo where
  name : String
  docstring : Option String
  members : List EnumMember
  deriving DecidableEq

structure ExceptionInfo where
  name : String
  docstring : Option String
  bases : List String
  deriving DecidableEq

structure TypeAliasInfo where
  name : String
  type : Option String
  value : Option String
  deriving DecidableEq

structure FileAnalysis where
  path : String
  imports : List String
  classes : List ClassInfo
  functions : List FuncInfo
  constants : List ConstantInfo
  enums : List EnumInfo
  exceptions : List ExceptionInfo
  type_aliases : List TypeAliasInfo
  module_docstring : Option String
  main_block : Option String
  deriving DecidableEq

/-!  ## format_function_signature -/

/-- Python list assignment `l[idx] = f(l[idx])` with Python index semantics:
a negative index counts from the end, and an index out of range on the
negative side raises (modelled as `none`).  The source guards the positive
side with `if idx < len(args)` before assigning. -/
def pyListSet (l : List String) (idx : Int) (f : String → String) :
    Option (List String) :=
  let n : Int := l.length
  let j := if idx < 0 then idx + n else idx
  if 0 ≤ j ∧ j < n then
    some (l.set j.toNat (f (l.getD j.toNat "")))
  else none

/-- The default-attaching loop of `format_function_signature`:
for each default at running index `idx` starting at
`num_args - num_defaults`, when `idx < len(args)` rewrite that entry to
`entry=<default-as-written>`. -/
def applyDefaults : List String → Int → List PExpr → Option (List String)
  | acc, _, [] => some acc
  | acc, idx, d :: ds =>
      if idx < (acc.length : Int) then
        match pyListSet acc idx (fun old => old ++ "=" ++ unparseExpr d) with
        | some acc2 => applyDefaults acc2 (idx + 1) ds
        | none => none
      else applyDefaults acc (idx + 1) ds

/-- Rendering of one parameter: `name` or `name: <annotation-as-written>`. -/
def renderArg (a : PArg) : String :=
  a.arg ++ (match a.ann with
    | some e => ": " ++ unparseExpr e
    | none => "")

/-- `format_function_signature` from python_analyzer.py, over the name,
parameter record and return annotation of a function node.  Only
`args.args`, `args.defaults`, `args.vararg` and `args.kwarg` are consulted;
the result is `none` when the Python code would raise (caught by the
callers, which then drop the declaration). -/
def format_function_signature (name : String) (fargs : PArguments)
    (returns : Option PExpr) : Option String :=
  let args0 := fargs.args.map renderArg
  let num_defaults := fargs.defaults.length
  let num_args := fargs.args.length
  let argsOpt :=
    if num_defaults > 0 then
      applyDefaults args0 ((num_args : Int) - (num_defaults : Int)) fargs.defaults
    else some args0
  match argsOpt with
  | none => none
  | some args1 =>
      let args2 := args1 ++
        (match fargs.vararg with
         | some va => ["*" ++ renderArg va]
         | none => []) ++
        (match fargs.kwarg with
         | some kw => ["**" ++ renderArg kw]
         | none => [])
      some ("def " ++ name ++ "(" ++ joinSep ", " args2 ++ ")" ++
        (match returns with
         | some r => " -> " ++ unparseExpr r
         | none => ""))

/-- `extract_docstring`: the docstring of a body, present exactly when the
first statement is a string-literal expression and non-empty (an empty
docstring is falsy in the Python source and yields None). -/
def extract_docstring (body : List Stmt) : Option String :=
  match body with
  | Stmt.exprStmt (PExpr.strConst s) :: _ => if s = "" then none else some s
  | _ => none

/-!  ## Per-statement extraction rules of analyze_python_file -/

/-- The skip test of the method loop: a body that is exactly one `pass`. -/
def isSinglePass : List Stmt → Bool
  | [Stmt.passStmt] => true
  | _ => false

/-- Sort rank of the Python key component `is_public == False`:
public entries rank 0, private entries rank 1. -/
def pubRank (isPub : Bool) : Nat := if isPub then 0 else 1

/-- Lexicographic comparison of the Python sort key
`(is_public == False, name)`. -/
def sortKeyLe (r₁ r₂ : Nat) (n₁ n₂ : String) : Bool :=
  if r₁ < r₂ then true else if r₂ < r₁ then false else pyStrLe n₁ n₂

/-- The method sort order `key=lambda x: (x[is_public] == False, x[name])`. -/
def methodLe (a b : MethodInfo) : Bool :=
  sortKeyLe (pubRank a.is_public) (pubRank b.is_public) a.name b.name

/-- The top-level-function sort order (same key as for methods). -/
def funcLe (a b : FuncInfo) : Bool :=
  sortKeyLe (pubRank a.is_public) (pubRank b.is_public) a.name b.name

/-- One class-body item to a MethodInfo: function and async-function members
only, skipping a single-`pass` body, dropping the member when signature
formatting raises. -/
def methodOf : Stmt → Option MethodInfo
  | .funcDef _ n margs mbody decs ret =>
      if isSinglePass mbody then none
      else
        match format_function_signature n margs ret with
        | some sig =>
            some { name := n, signature := sig,
                   docstring := extract_docstring mbody,
                   is_public := !(pyStartsWith n "_"),
                   is_property := decs.any
                     (fun d => strContains (pyLower (unparseExpr d)) "property"),
                   decorators := decs.map unparseExpr }
        | none => none
  | _ => none

/-- One class-body item to its AttributeInfo entries: plain assignments to
simple names, and annotated assignments to a simple name. -/
def attributesOf : Stmt → List AttributeInfo
  | .assign targets v =>
      targets.filterMap (fun t =>
        match t with
        | PExpr.name id =>
            some { name := id, type := none,
                   value := some (pyTake (unparseExpr v) 100),
                   is_public := !(pyStartsWith id "_") }
        | _ => none)
  | .annAssign (PExpr.name id) a v =>
      [{ name := id, type := some (unparseExpr a),
         value := v.map (fun e => pyTake (unparseExpr e) 100),
         is_public := !(pyStartsWith id "_") }]
  | _ => []

/-- The ClassInfo built for one class-definition node: name, docstring,
bases as written, methods (sorted public-first then by name) and class-level
attributes. -/
def mkClassInfo (n : String) (bases : List PExpr) (cbody : List Stmt) :
    ClassInfo :=
  { name := n,
    docstring := extract_docstring cbody,
    methods := (cbody.filterMap methodOf).mergeSort methodLe,
    bases := bases.map unparseExpr,
    attributes := cbody.flatMap attributesOf }

/-- The class pass over `ast.walk`: every class-definition node, at any
depth, yields a ClassInfo. -/
def classInfoOf : Stmt → Option ClassInfo
  | .classDef n bases cbody => some (mkClassInfo n bases cbody)
  | _ => none

/-- Normalized import strings of one statement. -/
def importStrings : Stmt → List String
  | .importStmt names => names.map (fun a => "import " ++ a)
  | .importFrom m names =>
      ["from " ++ m.getD "" ++ " import " ++ joinSep ", " names]
  | _ => []

/-- All normalized import strings of a module, collected over `ast.walk`. -/
def collectImports (body : List Stmt) : List String :=
  (walkStmts body).flatMap importStrings

/-- `dict.fromkeys` deduplication: keep the first occurrence of each string,
in order. -/
def dedupFirstAux (seen : List String) : List String → List String
  | [] => []
  | x :: xs =>
      if seen.contains x then dedupFirstAux seen xs
      else x :: dedupFirstAux (x :: seen) xs

/-- `list(dict.fromkeys(l))`. -/
def dedupFirst (l : List String) : List String := dedupFirstAux [] l

/-- One top-level statement to a FuncInfo (functions and async functions;
no single-`pass` skip at top level), dropped when formatting raises. -/
def funcInfoOf : Stmt → Option FuncInfo
  | .funcDef _ n fargs fbody decs ret =>
      match format_function_signature n fargs ret with
      | some sig =>
          some { name := n, signature := sig,
                 docstring := extract_docstring fbody,
                 is_public := !(pyStartsWith n "_"),
                 decorators := decs.map unparseExpr }
      | none => none
  | _ => none

/-- The 200-character value cap with ellipsis marker. -/
def truncate200 (s : String) : String :=
  if strLen s > 200 then pyTake s 200 ++ "..." else s

/-- The constant heuristic of the top-level pass: a simple-name target
whose identifier satisfies `id.isupper() or "_" in id.upper()`. -/
def constantsOf : Stmt → List ConstantInfo
  | .assign targets v =>
      targets.filterMap (fun t =>
        match t with
        | PExpr.name id =>
            if pyIsUpper id || strContains (pyUpper id) "_" then
              some { name := id, value := truncate200 (unparseExpr v) }
            else none
        | _ => none)
  | _ => []

/-- The enum heuristic: some base rendering contains "Enum". -/
def enumCondition (bases : List PExpr) : Bool :=
  bases.any (fun b => strContains (unparseExpr b) "Enum")

/-- The exception heuristic: some base rendering contains "Exception" or
"Error", or the class name contains "Error" or "Exception". -/
def exceptionCondition (n : String) (bases : List PExpr) : Bool :=
  bases.any (fun b =>
    strContains (unparseExpr b) "Exception" || strContains (unparseExpr b) "Error")
  || strContains n "Error" || strContains n "Exception"

/-- Enum members: plain assignments to simple names in the class body. -/
def enumMembersOf (cbody : List Stmt) : List EnumMember :=
  cbody.flatMap (fun item =>
    match item with
    | Stmt.assign targets v =>
        targets.filterMap (fun t =>
          match t with
          | PExpr.name id => some { name := id, value := unparseExpr v }
          | _ => none)
    | _ => [])

/-- The enum branch of the top-level class re-examination. -/
def enumOf : Stmt → Option EnumInfo
  | .classDef n bases cbody =>
      if enumCondition bases then
        some { name := n, docstring := extract_docstring cbody,
               members := enumMembersOf cbody }
      else none
  | _ => none

/-- The exception branch: an `elif` in the source, so it is reached only
when the enum heuristic did NOT match. -/
def exceptionOf : Stmt → Option ExceptionInfo
  | .classDef n bases cbody =>
      if enumCondition bases then none
      else if exceptionCondition n bases then
        some { name := n, docstring := extract_docstring cbody,
               bases := bases.map unparseExpr }
      else none
  | _ => none

/-- Top-level annotated assignments to a simple name become type aliases. -/
def typeAliasOf : Stmt → Option TypeAliasInfo
  | .annAssign (PExpr.name id) a v =>
      some { name := id, type := some (unparseExpr a),
             value := v.map unparseExpr }
  | _ => none

/-- The renderings retained from an entry-point body: of the first five
statements, those whose rendering is shorter than 500 characters. -/
def mainRendered (ifBody : List Stmt) : List String :=
  (ifBody.take 5).filterMap (fun st =>
    let code_line := unparseStmt st
    if strLen code_line < 500 then some code_line else none)

/-- The main-block step of the top-level loop: a conditional whose test is a
comparison rendering to text that contains both markers replaces the block,
unless no statement rendering was retained. -/
def mainStep (acc : Option String) : Stmt → Option String
  | .ifStmt (PExpr.compare src) ifBody _ =>
      if strContains src "__name__" && strContains src "__main__" then
        let code := mainRendered ifBody
        if code.isEmpty then acc else some (joinSep "\n" code)
      else acc
  | _ => acc

/-- Is a statement an import node (for the `__init__.py` content test)? -/
def isImportNode : Stmt → Bool
  | .importStmt _ => true
  | .importFrom _ _ => true
  | _ => false

/-- The analysis record built from a successfully parsed module body. -/
def analyzeTree (relPath : String) (body : List Stmt) : FileAnalysis :=
  { path := relPath,
    imports := dedupFirst (collectImports body),
    classes := (walkStmts body).filterMap classInfoOf,
    functions := (body.filterMap funcInfoOf).mergeSort funcLe,
    constants := body.flatMap constantsOf,
    enums := body.filterMap enumOf,
    exceptions := body.filterMap exceptionOf,
    type_aliases := body.filterMap typeAliasOf,
    module_docstring := extract_docstring body,
    main_block := body.foldl mainStep none }

/-- Is a statement a conditional node (used to delimit the scope of the
entry-point amendment)? -/
def isIfNode : Stmt → Bool
  | .ifStmt _ _ _ => true
  | _ => false

/-- `analyze_python_file` over a file name, a path label, the file text and
a parse oracle standing for `ast.parse` (returning the module body, or
`none` on a syntax error).  Mirrors the skip logic of the source: a stripped
text shorter than 10 characters, a syntax error, or an `__init__.py` whose
body is all imports yield no record. -/
def analyze_python_file (fileName relPath content : String)
    (parse : String → Option (List Stmt)) : Option FileAnalysis :=
  if strLen (pyStrip content) < 10 then none
  else
    match parse content with
    | none => none
    | some body =>
        if fileName == "__init__.py" && body.all isImportNode then none
        else some (analyzeTree relPath body)

/-!  ## Supporting lemmas -/

/-- Index of the first occurrence of a string in a list (length of the list
when absent). -/
def firstIdx (l : List String) (a : String) : Nat :=
  match l with
  | [] => 0
  | x :: xs => if x = a then 0 else firstIdx xs a + 1

theorem firstIdx_cons_ne {x a : String} (xs : List String) (h : x ≠ a) :
    firstIdx (x :: xs) a = firstIdx xs a + 1 := by
  simp [firstIdx, h]

theorem mem_dedupFirstAux {a : String} :
    ∀ (seen l : List String),
      a ∈ dedupFirstAux seen l ↔ a ∈ l ∧ a ∉ seen := by
  intro seen l
  induction l generalizing seen with
  | nil => simp [dedupFirstAux]
  | cons x xs ih =>
      rw [dedupFirstAux]
      by_cases hx : x ∈ seen
      · rw [if_pos (by simpa using hx), ih]
        constructor
        · rintro ⟨h1, h2⟩
          exact ⟨List.mem_cons_of_mem _ h1, h2⟩
        · rintro ⟨h1, h2⟩
          rcases List.mem_cons.mp h1 with heq | h1
          · exact absurd (heq ▸ hx) h2
          · exact ⟨h1, h2⟩
      · rw [if_neg (by simpa using hx)]
        constructor
        · intro hmem
          rcases List.mem_cons.mp hmem with heq | h1
          · subst heq; exact ⟨List.mem_cons_self _ _, hx⟩
          · obtain ⟨h2, h3⟩ := (ih (x :: seen)).mp h1
            refine ⟨List.mem_cons_of_mem _ h2, fun hmem2 => ?_⟩
            exact h3 (List.mem_cons_of_mem _ hmem2)
        · rintro ⟨h1, h2⟩
          rcases List.mem_cons.mp h1 with heq | h1
          · subst heq; exact List.mem_cons_self _ _
          · by_cases hax : a = x
            · subst hax; exact List.mem_cons_self _ _
            · refine List.mem_cons_of_mem _ ((ih (x :: seen)).mpr ⟨h1, ?_⟩)
              intro hmem2
              rcases List.mem_cons.mp hmem2 with heq | h3
              · exact hax heq
              · exact h2 h3

theorem nodup_dedupFirstAux :
    ∀ (seen l : List String), (dedupFirstAux seen l).Nodup := by
  intro seen l
  induction l generalizing seen with
  | nil => simp [dedupFirstAux]
  | cons x xs ih =>
      rw [dedupFirstAux]
      by_cases hx : x ∈ seen
      · rw [if_pos (by simpa using hx)]; exact ih seen
      · rw [if_neg (by simpa using hx)]
        refine List.nodup_cons.mpr ⟨?_, ih (x :: seen)⟩
        intro hmem
        have h := (mem_dedupFirstAux (x :: seen) xs).mp hmem
        exact h.2 (List.mem_cons_self _ _)

theorem pairwise_firstIdx_dedupFirstAux :
    ∀ (seen l : List String),
      (dedupFirstAux seen l).Pairwise (fun a b => firstIdx l a < firstIdx l b) := by
  intro seen l
  induction l generalizing seen with
  | nil => simp [dedupFirstAux]
  | cons x xs ih =>
      rw [dedupFirstAux]
      by_cases hx : x ∈ seen
      · rw [if_pos (by simpa using hx)]
        refine List.Pairwise.imp_of_mem ?_ (ih seen)
        intro a b ha hb hlt
        have ha2 := (mem_dedupFirstAux seen xs).mp ha
        have hb2 := (mem_dedupFirstAux seen xs).mp hb
        have hax : x ≠ a := fun heq => ha2.2 (heq ▸ hx)
        have hbx : x ≠ b := fun heq => hb2.2 (heq ▸ hx)
        rw [firstIdx_cons_ne xs hax, firstIdx_cons_ne xs hbx]
        omega
      · rw [if_neg (by simpa using hx)]
        refine List.pairwise_cons.mpr ⟨?_, ?_⟩
        · intro b hb
          have hb2 := (mem_dedupFirstAux (x :: seen) xs).mp hb
          have hbx : x ≠ b := fun heq =>
            hb2.2 (heq ▸ List.mem_cons_self _ _)
          rw [firstIdx_cons_ne xs hbx]
          simp [firstIdx]
        · refine List.Pairwise.imp_of_mem ?_ (ih (x :: seen))
          intro a b ha hb hlt
          have ha2 := (mem_dedupFirstAux (x :: seen) xs).mp ha
          have hb2 := (mem_dedupFirstAux (x :: seen) xs).mp hb
          have hax : x ≠ a := fun heq =>
            ha2.2 (heq ▸ List.mem_cons_self _ _)
          have hbx : x ≠ b := fun heq =>
            hb2.2 (heq ▸ List.mem_cons_self _ _)
          rw [firstIdx_cons_ne xs hax, firstIdx_cons_ne xs hbx]
          omega

theorem mem_dedupFirst {a : String} {l : List String} :
    a ∈ dedupFirst l ↔ a ∈ l := by
  rw [dedupFirst, mem_dedupFirstAux]
  simp

theorem pyStrLe_trans {a b c : String} (h1 : pyStrLe a b = true)
    (h2 : pyStrLe b c = true) : pyStrLe a c = true := by
  unfold pyStrLe at *
  rw [decide_eq_true_eq] at *
  exact le_trans h1 h2

theorem pyStrLe_total (a b : String) : (pyStrLe a b || pyStrLe b a) = true := by
  unfold pyStrLe
  rcases le_total a b with h | h <;> simp [h]

/-- Transitivity of the Python sort-key comparison. -/
theorem sortKeyLe_trans {r₁ r₂ r₃ : Nat} {n₁ n₂ n₃ : String}
    (h1 : sortKeyLe r₁ r₂ n₁ n₂ = true) (h2 : sortKeyLe r₂ r₃ n₂ n₃ = true) :
    sortKeyLe r₁ r₃ n₁ n₃ = true := by
  unfold sortKeyLe at h1 h2 ⊢
  split_ifs at h1 h2 ⊢ <;>
    first
      | rfl
      | (exact pyStrLe_trans h1 h2)
      | (exfalso; omega)

/-- Totality of the Python sort-key comparison. -/
theorem sortKeyLe_total (r₁ r₂ : Nat) (n₁ n₂ : String) :
    (sortKeyLe r₁ r₂ n₁ n₂ || sortKeyLe r₂ r₁ n₂ n₁) = true := by
  unfold sortKeyLe
  split_ifs <;>
    first
      | (exact pyStrLe_total n₁ n₂)
      | simp

/-- The sortedness shape the spec asserts: every public entry precedes
every private entry, and names ascend within a group. -/
def pubNameSorted {α : Type} (pub : α → Bool) (nm : α → String) (l : List α) : Prop :=
  l.Pairwise (fun a b =>
    (pub b = true → pub a = true) ∧ (pub a = pub b → nm a ≤ nm b))

theorem sortKeyLe_imp_shape {pa pb : Bool} {na nb : String}
    (h : sortKeyLe (pubRank pa) (pubRank pb) na nb = true) :
    (pb = true → pa = true) ∧ (pa = pb → na ≤ nb) := by
  constructor
  · intro hpb
    subst hpb
    cases pa
    · exfalso
      unfold sortKeyLe pubRank at h
      norm_num at h
    · rfl
  · intro hpp
    rw [← hpp] at h
    unfold sortKeyLe at h
    rw [if_neg (lt_irrefl _), if_neg (lt_irrefl _)] at h
    unfold pyStrLe at h
    exact of_decide_eq_true h

theorem sorted_mergeSort_methodLe (l : List MethodInfo) :
    pubNameSorted MethodInfo.is_public MethodInfo.name (l.mergeSort methodLe) := by
  have hs := @List.sorted_mergeSort MethodInfo methodLe
    (fun a b c hab hbc => sortKeyLe_trans hab hbc)
    (fun a b => sortKeyLe_total _ _ _ _) l
  exact hs.imp (fun h => sortKeyLe_imp_shape h)

theorem sorted_mergeSort_funcLe (l : List FuncInfo) :
    pubNameSorted FuncInfo.is_public FuncInfo.name (l.mergeSort funcLe) := by
  have hs := @List.sorted_mergeSort FuncInfo funcLe
    (fun a b c hab hbc => sortKeyLe_trans hab hbc)
    (fun a b => sortKeyLe_total _ _ _ _) l
  exact hs.imp (fun h => sortKeyLe_imp_shape h)

theorem mainStep_of_not_if {acc : Option String} {s : Stmt}
    (h : isIfNode s = false) : mainStep acc s = acc := by
  cases s <;> simp [isIfNode] at h ⊢ <;> rfl

theorem foldl_mainStep_of_no_if {post : List Stmt}
    (h : ∀ s ∈ post, isIfNode s = false) (acc : Option String) :
    post.foldl mainStep acc = acc := by
  induction post generalizing acc with
  | nil => rfl
  | cons s rest ih =>
      rw [List.foldl_cons, mainStep_of_not_if (h s (List.mem_cons_self s rest))]
      exact ih (fun t ht => h t (List.mem_cons_of_mem _ ht)) acc

/-!  ## Claims -/

/-- Claim C1, counterexample: the claim asserts that the top-level
assignment of 3 to the name max_retries yields NO ConstantInfo; in fact the
source condition `target.id.isupper() or "_" in target.id.upper()` is
satisfied (the name contains an underscore), so a ConstantInfo with name
max_retries and value 3 IS produced. -/
theorem c1_counterexample :
    (analyzeTree "config.py"
        [Stmt.assign [PExpr.name "max_retries"] (PExpr.other "3")]).constants
      = [{ name := "max_retries", value := "3" }] := by decide

/-- Claim C1 (amended): for a top-level plain assignment to a simple name,
a ConstantInfo entry is produced exactly when the target name is upper-case
or contains an underscore; in particular the assignment of 3 to max_retries
DOES yield a ConstantInfo (the name contains an underscore), and the
assignment of 3 to MAX_RETRIES yields ConstantInfo with name MAX_RETRIES
and value 3. -/
theorem c1_constant_rule (rp n : String) (v : PExpr) :
    (analyzeTree rp [Stmt.assign [PExpr.name n] v]).constants =
      (if (pyIsUpper n || strContains (pyUpper n) "_") = true then
        [{ name := n, value := truncate200 (unparseExpr v) }]
       else []) ∧
    (analyzeTree rp
        [Stmt.assign [PExpr.name "max_retries"] (PExpr.other "3")]).constants
      = [{ name := "max_retries", value := "3" }] ∧
    (analyzeTree rp
        [Stmt.assign [PExpr.name "MAX_RETRIES"] (PExpr.other "3")]).constants
      = [{ name := "MAX_RETRIES", value := "3" }] := by
  have gen : ∀ (m : String) (w : PExpr),
      (analyzeTree rp [Stmt.assign [PExpr.name m] w]).constants =
        (if (pyIsUpper m || strContains (pyUpper m) "_") = true then
          [{ name := m, value := truncate200 (unparseExpr w) }]
         else []) := by
    intro m w
    by_cases h1 : pyIsUpper m = true <;>
      by_cases h2 : strContains (pyUpper m) "_" = true <;>
        simp [analyzeTree, constantsOf, h1, h2]
  refine ⟨gen n v, ?_, ?_⟩ <;> rw [gen] <;> decide

/-- Claim C2, counterexample: a top-level class whose name contains Error
but whose single base renders to Enum is, per the claim, supposed to be
added to the exceptions list regardless of the enum heuristic; the source
reaches the exception check through an elif, so the class lands only in the
enums list and the exceptions list stays empty. -/
theorem c2_counterexample :
    (analyzeTree "module.py"
        [Stmt.classDef "ConfigError" [PExpr.name "Enum"] []]).exceptions = [] ∧
    (analyzeTree "module.py"
        [Stmt.classDef "ConfigError" [PExpr.name "Enum"] []]).enums =
      [{ name := "ConfigError", docstring := none, members := [] }] :=
  ⟨by decide, by decide⟩

/-- Claim C2 (amended): a top-level class is added to the exceptions list
exactly when it does NOT match the enum heuristic and (some base-type name
contains Exception or Error, or the class name contains Error or
Exception); a class matching the enum heuristic is added to the enums list
and never to the exceptions list. -/
theorem c2_exception_rule (rp n : String) (bases : List PExpr)
    (cbody : List Stmt) :
    (analyzeTree rp [Stmt.classDef n bases cbody]).exceptions =
      (if enumCondition bases = false ∧ exceptionCondition n bases = true then
        [{ name := n, docstring := extract_docstring cbody,
           bases := bases.map unparseExpr }]
       else []) ∧
    (analyzeTree rp [Stmt.classDef n bases cbody]).enums =
      (if enumCondition bases = true then
        [{ name := n, docstring := extract_docstring cbody,
           members := enumMembersOf cbody }]
       else []) := by
  constructor
  · by_cases he : enumCondition bases = true
    · simp [analyzeTree, exceptionOf, he]
    · rw [Bool.not_eq_true] at he
      by_cases hx : exceptionCondition n bases = true
      · simp [analyzeTree, exceptionOf, he, hx]
      · rw [Bool.not_eq_true] at hx
        simp [analyzeTree, exceptionOf, he, hx]
  · by_cases he : enumCondition bases = true
    · simp [analyzeTree, enumOf, he]
    · rw [Bool.not_eq_true] at he
      simp [analyzeTree, enumOf, he]

/-- Claim C10: the rendered signature is computed only from the regular
positional parameters, their trailing defaults, the star variadic and the
double-star variadic; replacing the positional-only parameters, the
keyword-only parameters and their defaults by anything (in particular by
nothing) leaves the rendered signature unchanged, so those parameters are
absent from it. -/
theorem c10_signature_ignores_posonly_kwonly (n : String) (fargs : PArguments)
    (ret : Option PExpr) (pos kwo : List PArg) (kwd : List (Option PExpr)) :
    format_function_signature n
        { fargs with posonlyargs := pos, kwonlyargs := kwo, kw_defaults := kwd }
        ret
      = format_function_signature n fargs ret := rfl

set_option maxRecDepth 40000 in
/-- Claim C3, counterexample: a top-level entry-point conditional whose
single child statement renders to exactly 500 characters.  Per the claim
the rendering should be capped to 500 characters and kept; the source
instead drops any rendering of 500 or more characters (the guard is a
strict less-than), and since nothing remains, no entry-point block is
recorded at all. -/
theorem c3_counterexample :
    (analyzeTree "main.py"
        [Stmt.ifStmt (PExpr.compare "__name__ == \x27__main__\x27")
          [Stmt.otherStmt (String.mk (List.replicate 500 'a'))] []]).main_block
      = none ∧
    strLen (unparseStmt (Stmt.otherStmt (String.mk (List.replicate 500 'a'))))
      = 500 :=
  ⟨by decide, by decide⟩

/-- Claim C3 (amended): for the last top-level conditional whose test is a
comparison rendering to text containing both markers, the entry-point block
is the renderings of those of its first five child statements whose
rendering is strictly shorter than 500 characters, joined by newlines; a
statement whose rendering has 500 or more characters is dropped (not
capped), and the block is only recorded when at least one rendering
remains. -/
theorem c3_main_block_rule (rp : String) (pre : List Stmt) (src : String)
    (ifBody orelse post : List Stmt)
    (hpost : ∀ s ∈ post, isIfNode s = false)
    (h1 : strContains src "__name__" = true)
    (h2 : strContains src "__main__" = true)
    (hne : mainRendered ifBody ≠ []) :
    (analyzeTree rp
        (pre ++ Stmt.ifStmt (PExpr.compare src) ifBody orelse :: post)).main_block
      = some (joinSep "\n" (mainRendered ifBody)) := by
  simp only [analyzeTree]
  rw [List.foldl_append, List.foldl_cons, foldl_mainStep_of_no_if hpost]
  simp [mainStep, h1, h2, hne]

/-- Witness for the amended claim C3 at a concrete module. -/
theorem c3_main_block_rule_witness :
    (analyzeTree "main.py"
        ([] ++ Stmt.ifStmt (PExpr.compare "__name__ == \x27__main__\x27")
          [Stmt.otherStmt "print(1)"] [] :: [])).main_block
      = some "print(1)" :=
  (c3_main_block_rule "main.py" [] "__name__ == \x27__main__\x27"
    [Stmt.otherStmt "print(1)"] [] [] (by simp) (by decide) (by decide)
    (by decide)).trans (by decide)

/-- Claim C4: a class declaration matching the enum heuristic is recorded
by BOTH independent passes: its ClassInfo appears in the general class list
(the walk over all depths) and its EnumInfo appears in the enum list (the
top-level pass); neither pass suppresses the other. -/
theorem c4_enum_in_both_lists (rp n : String) (bases : List PExpr)
    (cbody : List Stmt) (pre post : List Stmt)
    (h : enumCondition bases = true) :
    mkClassInfo n bases cbody ∈
      (analyzeTree rp (pre ++ Stmt.classDef n bases cbody :: post)).classes ∧
    ({ name := n, docstring := extract_docstring cbody,
       members := enumMembersOf cbody } : EnumInfo) ∈
      (analyzeTree rp (pre ++ Stmt.classDef n bases cbody :: post)).enums := by
  constructor
  · simp only [analyzeTree]
    refine List.mem_filterMap.mpr ⟨Stmt.classDef n bases cbody, ?_, rfl⟩
    exact mem_walkStmts_of_mem (by simp)
  · simp only [analyzeTree]
    refine List.mem_filterMap.mpr ⟨Stmt.classDef n bases cbody, by simp, ?_⟩
    simp [enumOf, h]

/-- Witness for claim C4 at a concrete enum class. -/
theorem c4_enum_in_both_lists_witness :
    mkClassInfo "Color" [PExpr.name "Enum"]
        [Stmt.assign [PExpr.name "RED"] (PExpr.other "1")] ∈
      (analyzeTree "colors.py"
        ([] ++ Stmt.classDef "Color" [PExpr.name "Enum"]
          [Stmt.assign [PExpr.name "RED"] (PExpr.other "1")] :: [])).classes ∧
    ({ name := "Color", docstring := none,
       members := [{ name := "RED", value := "1" }] } : EnumInfo) ∈
      (analyzeTree "colors.py"
        ([] ++ Stmt.classDef "Color" [PExpr.name "Enum"]
          [Stmt.assign [PExpr.name "RED"] (PExpr.other "1")] :: [])).enums :=
  c4_enum_in_both_lists "colors.py" "Color" [PExpr.name "Enum"]
    [Stmt.assign [PExpr.name "RED"] (PExpr.other "1")] [] [] (by decide)

/-- Claim C5: the analysis yields the skip signal (`none`) exactly when the
text does not parse, or the stripped text is shorter than 10 characters, or
the file is named __init__.py and every statement of its body is an import
statement; otherwise a FileAnalysis record is returned. -/
theorem c5_skip_characterization (fn rp c : String)
    (parse : String → Option (List Stmt)) :
    analyze_python_file fn rp c parse = none ↔
      (parse c = none ∨ strLen (pyStrip c) < 10 ∨
       (fn = "__init__.py" ∧
        ∃ body, parse c = some body ∧ ∀ s ∈ body, isImportNode s = true)) := by
  unfold analyze_python_file
  by_cases hlen : strLen (pyStrip c) < 10
  · simp [hlen]
  · rw [if_neg hlen]
    cases hp : parse c with
    | none => simp [hlen]
    | some body =>
        dsimp only
        by_cases hb : (fn == "__init__.py" && body.all isImportNode) = true
        · rw [if_pos hb]
          simp only [Bool.and_eq_true, beq_iff_eq, List.all_eq_true] at hb
          constructor
          · intro _
            exact Or.inr (Or.inr ⟨hb.1, body, rfl, hb.2⟩)
          · intro _
            rfl
        · rw [if_neg hb]
          constructor
          · intro hcontra
            cases hcontra
          · rintro (hcase | hcase | ⟨hfn, body2, hb2, hall⟩)
            · simp at hcase
            · exact absurd hcase hlen
            · exfalso
              injection hb2 with he
              subst he
              exact hb (by
                simp only [Bool.and_eq_true, beq_iff_eq, List.all_eq_true]
                exact ⟨hfn, hall⟩)

/-- Witness for claim C5: a file that fails to parse is skipped. -/
theorem c5_skip_characterization_witness :
    analyze_python_file "broken.py" "broken.py" "def broken(:::" (fun _ => none)
      = none :=
  (c5_skip_characterization "broken.py" "broken.py" "def broken(:::"
    (fun _ => none)).mpr (Or.inl rfl)

/-- Claim C6: the imports field of the analysis record has no duplicate
strings, contains exactly the normalized import strings collected at any
nesting depth of the tree (every import occurring anywhere, however deeply
nested, is included), keeps them ordered by first occurrence in the
collection order, and in particular a module importing os twice yields
exactly one import-os entry. -/
theorem c6_imports_dedup_ordered (rp : String) (body : List Stmt) :
    (analyzeTree rp body).imports.Nodup ∧
    (∀ s, s ∈ (analyzeTree rp body).imports ↔ s ∈ collectImports body) ∧
    (analyzeTree rp body).imports.Pairwise
      (fun a b =>
        firstIdx (collectImports body) a < firstIdx (collectImports body) b) ∧
    (∀ u ∈ body, ∀ t, OccursIn t u →
      ∀ s ∈ importStrings t, s ∈ (analyzeTree rp body).imports) ∧
    (analyzeTree rp [Stmt.importStmt ["os"], Stmt.importStmt ["os"]]).imports
      = ["import os"] := by
  refine ⟨?_, ?_, ?_, ?_, ?_⟩
  · simp only [analyzeTree]
    exact nodup_dedupFirstAux [] _
  · intro s
    simp only [analyzeTree]
    exact mem_dedupFirst
  · simp only [analyzeTree]
    exact pairwise_firstIdx_dedupFirstAux [] _
  · intro u hu t hocc s hs
    simp only [analyzeTree]
    apply mem_dedupFirst.mpr
    unfold collectImports
    exact List.mem_flatMap.mpr
      ⟨t, mem_walkStmts_of_occursIn hocc _ (mem_walkStmts_of_mem hu), hs⟩
  · simp [analyzeTree, collectImports, walkStmts, childStmts, importStrings,
      dedupFirst, dedupFirstAux]

/-- Claim C7: the top-level function list and every class method list are
sorted with public entries before private entries and alphabetically by
name within each group. -/
theorem c7_sorted_public_first (rp : String) (body : List Stmt) :
    pubNameSorted FuncInfo.is_public FuncInfo.name
      (analyzeTree rp body).functions ∧
    ∀ ci ∈ (analyzeTree rp body).classes,
      pubNameSorted MethodInfo.is_public MethodInfo.name ci.methods := by
  constructor
  · simp only [analyzeTree]
    exact sorted_mergeSort_funcLe _
  · intro ci hci
    simp only [analyzeTree] at hci
    obtain ⟨s, hs, hsome⟩ := List.mem_filterMap.mp hci
    cases s <;> simp only [classInfoOf, Option.some.injEq,
      reduceCtorEq] at hsome
    case classDef n bases cbody =>
      rw [← hsome]
      simp only [mkClassInfo]
      exact sorted_mergeSort_methodLe _

/-- Claim C8: a function or async-function member of a class body whose
entire body is a single pass statement contributes no MethodInfo at all;
in particular the class Foo with only such a private method has an empty
method list. -/
theorem c8_single_pass_method_skipped (rp n : String) (bases : List PExpr)
    (pre post : List Stmt) (isAsync : Bool) (m : String) (margs : PArguments)
    (decs : List PExpr) (ret : Option PExpr) :
    (mkClassInfo n bases
        (pre ++ Stmt.funcDef isAsync m margs [Stmt.passStmt] decs ret
          :: post)).methods
      = (mkClassInfo n bases (pre ++ post)).methods ∧
    (analyzeTree rp [Stmt.classDef "Foo" []
        [Stmt.funcDef false "_private"
          { posonlyargs := [], args := [{ arg := "self", ann := none }],
            vararg := none, kwonlyargs := [], kw_defaults := [], kwarg := none,
            defaults := [] }
          [Stmt.passStmt] [] none]]).classes.map ClassInfo.methods = [[]] := by
  constructor
  · simp [mkClassInfo, List.filterMap_append, methodOf, isSinglePass]
  · simp [analyzeTree, walkStmts, childStmts, classInfoOf, mkClassInfo,
      methodOf, isSinglePass, attributesOf, List.mergeSort_nil]

/-- Claim C9: the analysis is a pure function of its inputs — equal inputs
give equal results — and a text that fails to parse yields the skip signal
every time it is analyzed. -/
theorem c9_deterministic (fn rp c : String)
    (parse : String → Option (List Stmt)) (fn2 rp2 c2 : String)
    (parse2 : String → Option (List Stmt))
    (h1 : fn = fn2) (h2 : rp = rp2) (h3 : c = c2) (h4 : parse = parse2) :
    analyze_python_file fn rp c parse = analyze_python_file fn2 rp2 c2 parse2 ∧
    (parse c = none →
      analyze_python_file fn rp c parse = none ∧
      analyze_python_file fn2 rp2 c2 parse2 = none) := by
  subst h1; subst h2; subst h3; subst h4
  refine ⟨rfl, fun hp => ?_⟩
  have key : analyze_python_file fn rp c parse = none := by
    unfold analyze_python_file
    by_cases hlen : strLen (pyStrip c) < 10
    · rw [if_pos hlen]
    · rw [if_neg hlen, hp]
  exact ⟨key, key⟩

/-- Witness for claim C9 at a concrete malformed input: the skip result,
obtained twice through the determinism theorem. -/
theorem c9_deterministic_witness :
    analyze_python_file "m.py" "src/m.py" "def broken(:::" (fun _ => none)
      = none :=
  ((c9_deterministic "m.py" "src/m.py" "def broken(:::" (fun _ => none)
    "m.py" "src/m.py" "def broken(:::" (fun _ => none)
    rfl rfl rfl rfl).2 rfl).1

end AgentContext
